import Mathlib

/-!
Verification of the NDN client-node core (`src/node.cpp` and the C name
header) against its specification.  The data model and the operations are a
shallow embedding of the C++ source: the pending-interest table (PIT) and the
registered-prefix table (RPT) are insertion-ordered lists, callbacks are
opaque identifiers, and machine integers are modelled as `Int`/`Nat` (no
arithmetic in the source approaches the 64-bit overflow boundary).
-/

set_option maxHeartbeats 1000000

namespace ndn

/-- A name component: an opaque byte string (`ndn_NameComponent`,
src/unnamed/part_000). Bytes are modelled as `Nat`. -/
abbrev Component := List Nat

/-- An NDN name: the ordered sequence of components (`ndn_Name`,
src/unnamed/part_000). -/
abbrev Name := List Component

/-- `ndn_Name_match` per its documented contract in src/unnamed/part_000:
"Return true if the N components of this name are the same as the first N
components of the given name. This always returns 1 if this name is empty."
(The C implementation body is not among the sources.) -/
def Name.isPrefixOf : Name → Name → Bool
  | [], _ => true
  | _ :: _, [] => false
  | a :: as, b :: bs => a == b && Name.isPrefixOf as bs

/-- `ndn::Interest`: the fields the core reads — name, lifetime in
milliseconds (negative = unspecified), scope (negative = unspecified). -/
structure Interest where
  name : Name
  interestLifetimeMilliseconds : Int
  scope : Int
deriving Repr, DecidableEq

/-- `Interest::getInterestLifetime`. -/
def Interest.getInterestLifetime (self : Interest) : Int :=
  self.interestLifetimeMilliseconds

/-- `Interest::matchesName`, used at node.cpp:211: the Interest's name is a
prefix of the given name (delegates to `ndn_Name_match`). -/
def Interest.matchesName (self : Interest) (name : Name) : Bool :=
  self.name.isPrefixOf name

/-- `ndn::Data`: the core reads only the name; `content` and the signature
value appear in the registration path (node.cpp:111-118). -/
structure Data where
  name : Name
  content : List Nat
  signatureValue : List Nat
deriving Repr, DecidableEq

/-- An application callback, identified opaquely; the behaviour the core can
observe (whether an invocation raises) is supplied as a `CallbackId → Bool`
map where a claim needs it. -/
abbrev CallbackId := Nat

/-- `Node::PendingInterest` (node.cpp:238-254): an entry of the PIT. -/
structure PendingInterest where
  pendingInterestId : Nat
  interest : Interest
  onData : CallbackId
  onTimeout : Option CallbackId
  timeoutTimeMilliseconds : Int
deriving Repr, DecidableEq

/-- The `PendingInterest` constructor (node.cpp:238-254): the absolute
timeout time is `now + lifetime` when the Interest carries a non-negative
lifetime, else `now + 4000`. -/
def PendingInterest.create (now : Int) (pendingInterestId : Nat)
    (interest : Interest) (onData : CallbackId) (onTimeout : Option CallbackId) :
    PendingInterest :=
  { pendingInterestId := pendingInterestId
    interest := interest
    onData := onData
    onTimeout := onTimeout
    timeoutTimeMilliseconds :=
      if interest.getInterestLifetime ≥ 0 then
        now + interest.getInterestLifetime
      else
        now + 4000 }

/-- Modelled from the spec: "`sweepExpired(nowMs)` removes and returns
every entry with `deadline ≤ nowMs`" — the body of
`PendingInterest::isTimedOut` lives in a header that is not among the
sources. -/
def PendingInterest.isTimedOut (self : PendingInterest) (nowMilliseconds : Int) : Bool :=
  self.timeoutTimeMilliseconds ≤ nowMilliseconds

/-- `Node::RegisteredPrefix`: an entry of the registered-prefix table. -/
structure RegisteredPrefix where
  registeredPrefixId : Nat
  prefix_ : Name
  onInterest : CallbackId
deriving Repr, DecidableEq

/-- The mutable state of a `Node` that the claims concern: the two tables,
the two id counters (the sources seed both statics at 0, node.cpp:21-22) and
the forwarder id. -/
structure NodeState where
  pendingInterestTable : List PendingInterest
  registeredPrefixTable : List RegisteredPrefix
  lastPendingInterestId : Nat
  lastRegisteredPrefixId : Nat
  ndndId : Component
deriving Repr, DecidableEq

/-- The state of a fresh `Node` (node.cpp:24-31): empty tables, counters at
0 (node.cpp:21-22), empty ndndId. -/
def initialNodeState : NodeState :=
  { pendingInterestTable := []
    registeredPrefixTable := []
    lastPendingInterestId := 0
    lastRegisteredPrefixId := 0
    ndndId := [] }

/-- Modelled from the spec: "`id: u64` — monotonically increasing, unique
within a process lifetime; source of truth: a process-wide counter seeded at
0" — the body of `PendingInterest::getNextPendingInterestId` lives in a
header that is not among the sources.  Takes the counter's value and yields
the next id, which is also the new counter value. -/
def getNextPendingInterestId (lastPendingInterestId : Nat) : Nat :=
  lastPendingInterestId + 1

/-- `Node::expressInterest` (node.cpp:33-47): allocate the next id, append
the new `PendingInterest` to the PIT, then send the wire-encoded Interest.
`sendOk` models whether `transport_->send` succeeds; a send failure raises,
so the function surfaces `Except.error` — carrying the node state as it
stands when the exception escapes (the `push_back` at node.cpp:41 has
already happened). -/
def expressInterest (sendOk : Bool) (now : Int) (s : NodeState)
    (interest : Interest) (onData : CallbackId) (onTimeout : Option CallbackId) :
    Except NodeState (NodeState × Nat) :=
  let pendingInterestId := getNextPendingInterestId s.lastPendingInterestId
  let inserted : NodeState :=
    { s with
      lastPendingInterestId := pendingInterestId
      pendingInterestTable := s.pendingInterestTable ++
        [PendingInterest.create now pendingInterestId interest onData onTimeout] }
  if sendOk then Except.ok (inserted, pendingInterestId)
  else Except.error inserted

/-- `Node::removePendingInterest` (node.cpp:49-58): the backwards loop
erases every entry whose id matches, keeping the others in order (erasing at
index `i` never moves the entries before `i`). -/
def removePendingInterest (pendingInterestId : Nat) :
    List PendingInterest → List PendingInterest
  | [] => []
  | e :: rest =>
    if e.pendingInterestId == pendingInterestId then
      removePendingInterest pendingInterestId rest
    else
      e :: removePendingInterest pendingInterestId rest

/-- `Node::checkPitExpire` (node.cpp:147-166): walk the PIT backwards (index
`size-1` down to 0); each timed-out entry is erased and then its timeout
callback is called.  Yields the remaining table and the timed-out entries in
the order their callbacks run.  The backwards walk means, for `e :: rest`,
every entry of `rest` is handled before `e`; the clock is modelled as
constant within the one tick (the source re-reads it only to guard against a
slow callback delaying the tick). -/
def checkPitExpire (nowMilliseconds : Int) :
    List PendingInterest → List PendingInterest × List PendingInterest
  | [] => ([], [])
  | e :: rest =>
    let r := checkPitExpire nowMilliseconds rest
    if e.isTimedOut nowMilliseconds then (r.1, r.2 ++ [e])
    else (e :: r.1, r.2)

/-- An attempted callback invocation: `Except.error` when the callback
raises an exception, per the behaviour map `raises`. -/
def invoke (raises : CallbackId → Bool) (cb : CallbackId) : Except Unit Unit :=
  if raises cb then Except.error () else Except.ok ()

/-- `Node::PendingInterest::callTimeout` (node.cpp:256-266): when an
`onTimeout` callback is present it is invoked inside `try { ... } catch
(...) { }`, so every exception it raises is swallowed and the call always
returns normally. -/
def PendingInterest.callTimeout (raises : CallbackId → Bool)
    (self : PendingInterest) : Except Unit Unit :=
  match self.onTimeout with
  | none => Except.ok ()
  | some cb =>
    match invoke raises cb with
    | Except.ok u => Except.ok u
    | Except.error _ => Except.ok ()

/-- `Node::getEntryIndexForExpressedInterest` (node.cpp:205-218): the index
of the first PIT entry, in insertion order, whose Interest matches the
name; `none` when no entry matches (the source returns the `end()`
iterator). -/
def getEntryIndexForExpressedInterest (table : List PendingInterest)
    (name : Name) : Option Nat :=
  match table with
  | [] => none
  | e :: rest =>
    if e.interest.matchesName name then some 0
    else (getEntryIndexForExpressedInterest rest name).map (· + 1)

/-- The loop of `Node::getEntryForRegisteredPrefix` (node.cpp:225-234):
`longestPrefix` starts empty and is replaced by the current entry exactly
when it is still empty or the current entry's prefix has strictly more
components. -/
def getEntryForRegisteredPrefixLoop (longestPrefix : Option RegisteredPrefix) :
    List RegisteredPrefix → Option RegisteredPrefix
  | [] => longestPrefix
  | e :: rest =>
    getEntryForRegisteredPrefixLoop
      (match longestPrefix with
       | none => some e
       | some best =>
         if e.prefix_.length > best.prefix_.length then some e else some best)
      rest

/-- `Node::getEntryForRegisteredPrefix` (node.cpp:220-236).  Note that the
loop never consults `name`: it selects the entry with the longest prefix in
the whole table, whether or not that prefix matches the Interest. -/
def getEntryForRegisteredPrefix (table : List RegisteredPrefix)
    (_name : Name) : Option RegisteredPrefix :=
  getEntryForRegisteredPrefixLoop none table

/-- A decoded TLV block as the dispatcher receives it (node.cpp:170-196
switches on `block.type()` and wire-decodes; decoding is modelled as already
done, the block carrying the packet). -/
inductive Block where
  | interestBlock (interest : Interest)
  | dataBlock (data : Data)
  | otherBlock
deriving Repr, DecidableEq

/-- One observable action of the core, in execution order. -/
inductive Event where
  | erasePendingInterest (pendingInterestId : Nat)
  | callOnData (onData : CallbackId) (interest : Interest) (data : Data)
  | callOnInterest (onInterest : CallbackId) (prefix_ : Name)
      (interest : Interest) (registeredPrefixId : Nat)
  | insertRegisteredPrefix (entry : RegisteredPrefix)
  | sendInterest (interest : Interest)
deriving Repr, DecidableEq

/-- `Node::onReceiveElement` (node.cpp:169-196).  Yields the new node state,
the trace of actions in the order the source performs them, and whether an
exception escapes the dispatcher (`Except.error`): the source wraps neither
the `onInterest` call (line 179) nor the `onData` call (line 193) in any
try/catch, so an exception from either propagates; for a Data match the PIT
entry is erased (line 192) before `onData` runs, and that erase persists
even when `onData` then raises. -/
def onReceiveElement (raises : CallbackId → Bool) (s : NodeState) (b : Block) :
    NodeState × List Event × Except Unit Unit :=
  match b with
  | Block.interestBlock interest =>
    match getEntryForRegisteredPrefix s.registeredPrefixTable interest.name with
    | none => (s, [], Except.ok ())
    | some entry =>
      (s,
       [Event.callOnInterest entry.onInterest entry.prefix_ interest
          entry.registeredPrefixId],
       invoke raises entry.onInterest)
  | Block.dataBlock data =>
    match getEntryIndexForExpressedInterest s.pendingInterestTable data.name with
    | none => (s, [], Except.ok ())
    | some i =>
      match s.pendingInterestTable[i]? with
      | none => (s, [], Except.ok ())
      | some entry =>
        ({ s with pendingInterestTable := s.pendingInterestTable.eraseIdx i },
         [Event.erasePendingInterest entry.pendingInterestId,
          Event.callOnData entry.onData entry.interest data],
         invoke raises entry.onData)
  | Block.otherBlock => (s, [], Except.ok ())

/-- The bytes of the string literal `"ndnx"` (node.cpp:122). -/
def ndnxBytes : Component := [110, 100, 110, 120]

/-- The bytes of the string literal `"selfreg"` (node.cpp:123). -/
def selfregBytes : Component := [115, 101, 108, 102, 114, 101, 103]

/-- `ndn::ForwardingEntry` as built at node.cpp:107:
`ForwardingEntry("selfreg", *prefix, -1, flags, -1)`.  Flags are opaque to
the claims and modelled as a `Nat`. -/
structure ForwardingEntry where
  action : List Nat
  prefix_ : Name
  faceId : Int
  forwardingFlags : Nat
  freshnessPeriod : Int
deriving Repr, DecidableEq

/-- The `ForwardingEntry` the registration helper builds (node.cpp:107). -/
def selfregForwardingEntry (prefix_ : Name) (flags : Nat) : ForwardingEntry :=
  { action := selfregBytes
    prefix_ := prefix_
    faceId := -1
    forwardingFlags := flags
    freshnessPeriod := -1 }

/-- The `Data` packet the registration helper builds (node.cpp:111-118): its
content is the wire-encoded `ForwardingEntry`, its signature value the empty
blob.  `encodeForwardingEntry` models the external wire codec. -/
def selfregData (encodeForwardingEntry : ForwardingEntry → List Nat)
    (prefix_ : Name) (flags : Nat) : Data :=
  { name := []
    content := encodeForwardingEntry (selfregForwardingEntry prefix_ flags)
    signatureValue := [] }

/-- `Node::registerPrefixHelper` (node.cpp:96-136): build the
`ForwardingEntry`, wrap it in a `Data`, build the registration Interest
whose name is assembled by four appends — `"ndnx"`, the ndndId, `"selfreg"`,
the wire-encoded Data — set scope 1, append the (`id`, `prefix`,
`onInterest`) entry to the RPT (line 133), and only then send the Interest
(line 135).  `encodeForwardingEntry`/`encodeData` model the external wire
codec.  Yields the new state and the trace of actions in execution order. -/
def registerPrefixHelper (encodeForwardingEntry : ForwardingEntry → List Nat)
    (encodeData : Data → List Nat) (s : NodeState)
    (registeredPrefixId : Nat) (prefix_ : Name) (onInterest : CallbackId)
    (flags : Nat) : NodeState × List Event :=
  let data := selfregData encodeForwardingEntry prefix_ flags
  let interestName : Name :=
    (([] : Name) ++ [ndnxBytes]) ++ [s.ndndId] ++ [selfregBytes] ++
      [encodeData data]
  let interest : Interest :=
    { name := interestName, interestLifetimeMilliseconds := -1, scope := 1 }
  let entry : RegisteredPrefix :=
    { registeredPrefixId := registeredPrefixId
      prefix_ := prefix_
      onInterest := onInterest }
  ({ s with registeredPrefixTable := s.registeredPrefixTable ++ [entry] },
   [Event.insertRegisteredPrefix entry, Event.sendInterest interest])

/-- One operation of a run, for the id-uniqueness claim: an
`expressInterest` (whose send may fail), a `removePendingInterest`, or a
timer sweep. -/
inductive NodeOp where
  | express (sendOk : Bool) (now : Int) (interest : Interest)
      (onData : CallbackId) (onTimeout : Option CallbackId)
  | removePending (pendingInterestId : Nat)
  | sweep (now : Int)
deriving Repr

/-- Apply one operation: the new state and the pending-interest id returned
to the caller, when the operation is an `expressInterest` that returns
(a failed send raises, so the caller receives no id). -/
def applyOp (s : NodeState) : NodeOp → NodeState × Option Nat
  | NodeOp.express sendOk now interest onData onTimeout =>
    match expressInterest sendOk now s interest onData onTimeout with
    | Except.ok (s', pendingInterestId) => (s', some pendingInterestId)
    | Except.error s' => (s', none)
  | NodeOp.removePending pendingInterestId =>
    ({ s with pendingInterestTable :=
        removePendingInterest pendingInterestId s.pendingInterestTable },
     none)
  | NodeOp.sweep now =>
    ({ s with pendingInterestTable :=
        (checkPitExpire now s.pendingInterestTable).1 },
     none)

/-- Run a sequence of operations from a state; collect the ids
`expressInterest` returns, in order. -/
def runOps (s : NodeState) : List NodeOp → NodeState × List Nat
  | [] => (s, [])
  | op :: ops =>
    let step := applyOp s op
    let rest := runOps step.1 ops
    (rest.1, step.2.toList ++ rest.2)

/-- The greatest prefix component count over a registered-prefix table
(0 for the empty table). -/
def maxPrefixLength : List RegisteredPrefix → Nat
  | [] => 0
  | e :: rest => max e.prefix_.length (maxPrefixLength rest)

/-- The entry with the overall greatest prefix component count, the
earliest-inserted one on ties: the first entry whose prefix length equals
the table's maximum. -/
def firstLongestEntry (table : List RegisteredPrefix) : Option RegisteredPrefix :=
  table.find? (fun e => e.prefix_.length == maxPrefixLength table)

/-! ## Helper lemmas -/

/-- `removePendingInterest` keeps exactly the entries whose id differs, in
order. -/
theorem removePendingInterest_eq_filter (pendingInterestId : Nat)
    (table : List PendingInterest) :
    removePendingInterest pendingInterestId table =
      table.filter (fun e => !(e.pendingInterestId == pendingInterestId)) := by
  induction table with
  | nil => rfl
  | cons e rest ih =>
    simp only [removePendingInterest, List.filter]
    by_cases h : e.pendingInterestId = pendingInterestId
    · have hb : (e.pendingInterestId == pendingInterestId) = true := by simp [h]
      simp [hb, ih]
    · have hb : (e.pendingInterestId == pendingInterestId) = false := by simp [h]
      simp [hb, ih]

/-- The sweep keeps exactly the entries not yet timed out and fires exactly
the timed-out ones, in reverse table order. -/
theorem checkPitExpire_eq (nowMilliseconds : Int) (table : List PendingInterest) :
    checkPitExpire nowMilliseconds table =
      (table.filter (fun e => !(e.isTimedOut nowMilliseconds)),
       (table.filter (fun e => e.isTimedOut nowMilliseconds)).reverse) := by
  induction table with
  | nil => rfl
  | cons e rest ih =>
    simp only [checkPitExpire, List.filter, ih]
    by_cases h : e.isTimedOut nowMilliseconds = true
    · simp [h]
    · have hb : e.isTimedOut nowMilliseconds = false := by
        simpa using h
      simp [hb]

/-- A successful PIT lookup yields the index of an entry that matches, and
every entry before that index does not match. -/
theorem getEntryIndexForExpressedInterest_some_spec (name : Name) :
    ∀ (table : List PendingInterest) (i : Nat),
      getEntryIndexForExpressedInterest table name = some i →
      (∃ e, table[i]? = some e ∧ e.interest.matchesName name = true) ∧
      (∀ j e', j < i → table[j]? = some e' →
        e'.interest.matchesName name = false) := by
  intro table
  induction table with
  | nil => intro i h; exact absurd h (by simp [getEntryIndexForExpressedInterest])
  | cons e rest ih =>
    intro i h
    by_cases hm : e.interest.matchesName name = true
    · have hi : i = 0 := by
        simp [getEntryIndexForExpressedInterest, hm] at h
        omega
      subst hi
      refine ⟨⟨e, by simp, hm⟩, ?_⟩
      intro j e' hj
      omega
    · have hm' : e.interest.matchesName name = false := by
        simpa using hm
      simp only [getEntryIndexForExpressedInterest, hm', Bool.false_eq_true,
        if_false, Option.map_eq_some'] at h
      obtain ⟨i', hi', rfl⟩ := h
      obtain ⟨⟨e₀, he₀, hme₀⟩, hfirst⟩ := ih i' hi'
      refine ⟨⟨e₀, by simpa using he₀, hme₀⟩, ?_⟩
      intro j e' hj hje'
      cases j with
      | zero =>
        have : e' = e := by
          have := hje'
          simp only [List.getElem?_cons_zero, Option.some.injEq] at this
          exact this.symm
        rw [this]; exact hm'
      | succ j' =>
        have hj' : j' < i' := by omega
        exact hfirst j' e' hj' (by simpa using hje')

/-- The PIT lookup yields no index exactly when no entry matches. -/
theorem getEntryIndexForExpressedInterest_none_iff (name : Name) :
    ∀ table : List PendingInterest,
      getEntryIndexForExpressedInterest table name = none ↔
        ∀ e ∈ table, e.interest.matchesName name = false := by
  intro table
  induction table with
  | nil => simp [getEntryIndexForExpressedInterest]
  | cons e rest ih =>
    by_cases hm : e.interest.matchesName name = true
    · simp [getEntryIndexForExpressedInterest, hm]
    · have hm' : e.interest.matchesName name = false := by simpa using hm
      simp [getEntryIndexForExpressedInterest, hm', ih]

/-- Every entry's prefix length is bounded by the table's maximum. -/
theorem prefixLength_le_maxPrefixLength :
    ∀ (table : List RegisteredPrefix), ∀ x ∈ table,
      x.prefix_.length ≤ maxPrefixLength table := by
  intro table
  induction table with
  | nil => intro x hx; exact absurd hx (List.not_mem_nil x)
  | cons e t ih =>
    intro x hx
    rcases List.mem_cons.mp hx with hx | hx
    · rw [hx]; exact le_max_left _ _
    · exact le_trans (ih x hx) (le_max_right _ _)

/-- A non-empty table attains its maximum prefix length. -/
theorem maxPrefixLength_attained :
    ∀ (table : List RegisteredPrefix), table ≠ [] →
      ∃ x ∈ table, x.prefix_.length = maxPrefixLength table := by
  intro table
  induction table with
  | nil => intro h; exact absurd rfl h
  | cons e t ih =>
    intro _
    rcases Nat.le_total (maxPrefixLength t) e.prefix_.length with h | h
    · exact ⟨e, List.mem_cons_self e t, (Nat.max_eq_left h).symm⟩
    · by_cases ht : t = []
      · subst ht
        exact ⟨e, List.mem_cons_self e _, by simp [maxPrefixLength]⟩
      · obtain ⟨x, hx, hlen⟩ := ih ht
        refine ⟨x, List.mem_cons_of_mem e hx, ?_⟩
        show x.prefix_.length = max e.prefix_.length (maxPrefixLength t)
        rw [Nat.max_eq_right h, hlen]

/-- The source's lookup loop, started with a current best `b`, returns the
first element of `b :: rest` whose prefix length equals that list's maximum
prefix length. -/
theorem getEntryForRegisteredPrefixLoop_eq_find :
    ∀ (rest : List RegisteredPrefix) (b : RegisteredPrefix),
      getEntryForRegisteredPrefixLoop (some b) rest =
        (b :: rest).find?
          (fun e => e.prefix_.length == maxPrefixLength (b :: rest)) := by
  intro rest
  induction rest with
  | nil =>
    intro b
    have hp : (b.prefix_.length == maxPrefixLength [b]) = true := by
      simp [maxPrefixLength]
    rw [List.find?_cons_of_pos
      (p := fun (x : RegisteredPrefix) => x.prefix_.length == maxPrefixLength [b]) _ hp]
    rfl
  | cons e t ih =>
    intro b
    simp only [getEntryForRegisteredPrefixLoop]
    by_cases h : e.prefix_.length > b.prefix_.length
    · rw [if_pos h, ih e]
      have hM : maxPrefixLength (b :: e :: t) = maxPrefixLength (e :: t) := by
        have : b.prefix_.length ≤ maxPrefixLength (e :: t) :=
          le_trans (le_of_lt h) (le_max_left _ _)
        simp [maxPrefixLength] at this ⊢
        omega
      rw [hM]
      have hbp : ¬ (b.prefix_.length == maxPrefixLength (e :: t)) = true := by
        have h1 : e.prefix_.length ≤ maxPrefixLength (e :: t) := le_max_left _ _
        simp only [beq_iff_eq]
        omega
      rw [List.find?_cons_of_neg
        (p := fun (x : RegisteredPrefix) => x.prefix_.length == maxPrefixLength (e :: t)) _ hbp]
    · rw [if_neg h, ih b]
      have hle : e.prefix_.length ≤ b.prefix_.length := Nat.le_of_not_lt h
      have hM : maxPrefixLength (b :: e :: t) = maxPrefixLength (b :: t) := by
        simp only [maxPrefixLength]
        omega
      rw [hM]
      have hbmax : b.prefix_.length ≤ maxPrefixLength (b :: t) := le_max_left _ _
      by_cases hb : b.prefix_.length = maxPrefixLength (b :: t)
      · rw [List.find?_cons_of_pos
            (p := fun (x : RegisteredPrefix) => x.prefix_.length == maxPrefixLength (b :: t)) _
            (by simp [hb]),
          List.find?_cons_of_pos
            (p := fun (x : RegisteredPrefix) => x.prefix_.length == maxPrefixLength (b :: t)) _
            (by simp [hb])]
      · have hblt : b.prefix_.length < maxPrefixLength (b :: t) :=
          lt_of_le_of_ne hbmax hb
        rw [List.find?_cons_of_neg
            (p := fun (x : RegisteredPrefix) => x.prefix_.length == maxPrefixLength (b :: t)) _
            (by simp [hb]),
          List.find?_cons_of_neg
            (p := fun (x : RegisteredPrefix) => x.prefix_.length == maxPrefixLength (b :: t)) _
            (by simp [hb]),
          List.find?_cons_of_neg
            (p := fun (x : RegisteredPrefix) => x.prefix_.length == maxPrefixLength (b :: t)) _
            (by simp only [beq_iff_eq]; omega)]

/-- The source's lookup equals the first-longest selection, for every
table (the Interest name plays no part). -/
theorem getEntryForRegisteredPrefix_eq_firstLongest
    (table : List RegisteredPrefix) (name : Name) :
    getEntryForRegisteredPrefix table name = firstLongestEntry table := by
  cases table with
  | nil => rfl
  | cons e t =>
    show getEntryForRegisteredPrefixLoop (some e) t = firstLongestEntry (e :: t)
    exact getEntryForRegisteredPrefixLoop_eq_find t e

/-- One operation never decreases the id counter. -/
theorem applyOp_last_mono (s : NodeState) (op : NodeOp) :
    s.lastPendingInterestId ≤ (applyOp s op).1.lastPendingInterestId := by
  cases op with
  | express sendOk now interest onData onTimeout =>
    cases sendOk <;>
      simp [applyOp, expressInterest, getNextPendingInterestId]
  | removePending pendingInterestId => simp [applyOp]
  | sweep now => simp [applyOp]

/-- An operation that returns an id returns one strictly above the previous
counter and not above the new counter. -/
theorem applyOp_some_spec (s : NodeState) (op : NodeOp) (pendingInterestId : Nat) :
    (applyOp s op).2 = some pendingInterestId →
    s.lastPendingInterestId < pendingInterestId ∧
    pendingInterestId ≤ (applyOp s op).1.lastPendingInterestId := by
  cases op with
  | express sendOk now interest onData onTimeout =>
    cases sendOk with
    | true =>
      intro h
      simp [applyOp, expressInterest, getNextPendingInterestId] at h ⊢
      omega
    | false =>
      intro h
      simp [applyOp, expressInterest] at h
  | removePending i => intro h; simp [applyOp] at h
  | sweep now => intro h; simp [applyOp] at h

/-- Every id a run returns is strictly above the starting counter. -/
theorem runOps_ids_gt :
    ∀ (ops : List NodeOp) (s : NodeState) (pendingInterestId : Nat),
      pendingInterestId ∈ (runOps s ops).2 →
      s.lastPendingInterestId < pendingInterestId := by
  intro ops
  induction ops with
  | nil => intro s i h; exact absurd h (List.not_mem_nil i)
  | cons op rest ih =>
    intro s i h
    simp only [runOps, List.mem_append] at h
    rcases h with h | h
    · rcases hstep : (applyOp s op).2 with _ | j
      · rw [hstep] at h; simp at h
      · rw [hstep] at h
        simp only [Option.toList_some, List.mem_singleton] at h
        subst h
        exact (applyOp_some_spec s op i hstep).1
    · have h1 := ih (applyOp s op).1 i h
      have h2 := applyOp_last_mono s op
      omega

/-- The ids a run returns are strictly increasing in order of return. -/
theorem runOps_ids_sorted :
    ∀ (ops : List NodeOp) (s : NodeState),
      List.Pairwise (· < ·) (runOps s ops).2 := by
  intro ops
  induction ops with
  | nil => intro s; simp [runOps]
  | cons op rest ih =>
    intro s
    simp only [runOps]
    rcases hstep : (applyOp s op).2 with _ | j
    · simpa using ih (applyOp s op).1
    · simp only [Option.toList_some, List.singleton_append, List.pairwise_cons]
      refine ⟨?_, ih (applyOp s op).1⟩
      intro k hk
      have h1 := runOps_ids_gt rest (applyOp s op).1 k hk
      have h2 := (applyOp_some_spec s op j hstep).2
      omega

/-! ## Claim theorems -/

/-- Claim C7: for every Interest inserted into the PIT, the entry's absolute
deadline is computed at insertion time as `now + interest.lifetimeMs` when
the lifetime is non-negative, and as `now + 4000` when the lifetime is
negative (unspecified). -/
theorem C7_pit_deadline (now : Int) (pendingInterestId : Nat)
    (interest : Interest) (onData : CallbackId) (onTimeout : Option CallbackId) :
    (0 ≤ interest.interestLifetimeMilliseconds →
      (PendingInterest.create now pendingInterestId interest onData
          onTimeout).timeoutTimeMilliseconds =
        now + interest.interestLifetimeMilliseconds) ∧
    (interest.interestLifetimeMilliseconds < 0 →
      (PendingInterest.create now pendingInterestId interest onData
          onTimeout).timeoutTimeMilliseconds = now + 4000) := by
  constructor
  · intro h
    simp [PendingInterest.create, Interest.getInterestLifetime, h]
  · intro h
    have h' : ¬ interest.getInterestLifetime ≥ 0 := by
      simp [Interest.getInterestLifetime]
      omega
    simp [PendingInterest.create, if_neg h']

/-- Witness for C7 at concrete inputs: lifetime 500 at time 100 gives
deadline 600; lifetime -1 at time 100 gives deadline 4100. -/
theorem C7_pit_deadline_witness :
    (PendingInterest.create 100 1 ⟨[[97]], 500, -1⟩ 0 none).timeoutTimeMilliseconds
        = 600 ∧
    (PendingInterest.create 100 2 ⟨[[97]], -1, -1⟩ 0 none).timeoutTimeMilliseconds
        = 4100 := by
  constructor
  · have h := (C7_pit_deadline 100 1 ⟨[[97]], 500, -1⟩ 0 none).1 (by decide)
    rw [h]
    decide
  · have h := (C7_pit_deadline 100 2 ⟨[[97]], -1, -1⟩ 0 none).2 (by decide)
    rw [h]
    decide

/-- Claim C8: `removePendingInterest id` removes every entry whose id
matches, never fails (it is total and leaves a no-match table unchanged),
and is idempotent. -/
theorem C8_removePendingInterest_spec (pendingInterestId : Nat)
    (table : List PendingInterest) :
    (∀ e ∈ removePendingInterest pendingInterestId table,
        e.pendingInterestId ≠ pendingInterestId) ∧
    removePendingInterest pendingInterestId
        (removePendingInterest pendingInterestId table) =
      removePendingInterest pendingInterestId table ∧
    ((∀ e ∈ table, e.pendingInterestId ≠ pendingInterestId) →
      removePendingInterest pendingInterestId table = table) := by
  refine ⟨?_, ?_, ?_⟩
  · intro e he
    rw [removePendingInterest_eq_filter] at he
    have := List.of_mem_filter he
    simpa using this
  · rw [removePendingInterest_eq_filter, removePendingInterest_eq_filter,
      List.filter_filter]
    simp
  · intro h
    rw [removePendingInterest_eq_filter]
    apply List.filter_eq_self.mpr
    intro e he
    simpa using h e he

/-- Witness for C8: removing an absent id (7) from a concrete one-entry
table leaves it unchanged, and a second removal of a present id (5) after
the first is a no-op. -/
theorem C8_removePendingInterest_witness :
    removePendingInterest 7 [⟨5, ⟨[[97]], 1000, -1⟩, 0, none, 10⟩] =
      [⟨5, ⟨[[97]], 1000, -1⟩, 0, none, 10⟩] ∧
    removePendingInterest 5
        (removePendingInterest 5 [⟨5, ⟨[[97]], 1000, -1⟩, 0, none, 10⟩]) =
      removePendingInterest 5 [⟨5, ⟨[[97]], 1000, -1⟩, 0, none, 10⟩] := by
  constructor
  · exact (C8_removePendingInterest_spec 7
      [⟨5, ⟨[[97]], 1000, -1⟩, 0, none, 10⟩]).2.2 (by decide)
  · exact (C8_removePendingInterest_spec 5
      [⟨5, ⟨[[97]], 1000, -1⟩, 0, none, 10⟩]).2.1

/-- Counterexample to claim C2's ordering clause: with two entries, both
expired (deadline 0, tick at time 100), the sweep fires the callbacks in
reverse insertion order `[e2, e1]`, not in insertion order `[e1, e2]`. -/
theorem C2_cex_timeout_order :
    (checkPitExpire 100
        [⟨1, ⟨[[97]], -1, -1⟩, 0, some 10, 0⟩,
         ⟨2, ⟨[[98]], -1, -1⟩, 0, some 11, 0⟩]).2 =
      [⟨2, ⟨[[98]], -1, -1⟩, 0, some 11, 0⟩,
       ⟨1, ⟨[[97]], -1, -1⟩, 0, some 10, 0⟩] ∧
    (checkPitExpire 100
        [⟨1, ⟨[[97]], -1, -1⟩, 0, some 10, 0⟩,
         ⟨2, ⟨[[98]], -1, -1⟩, 0, some 11, 0⟩]).2 ≠
      [⟨1, ⟨[[97]], -1, -1⟩, 0, some 10, 0⟩,
       ⟨2, ⟨[[98]], -1, -1⟩, 0, some 11, 0⟩] := by
  constructor
  · decide
  · decide

/-- Claim C2 as amended: in one timer tick at time `now`, every PIT entry
whose deadline is ≤ `now` is removed and its timeout callback invoked, no
entry whose deadline is > `now` is removed, and among the entries expiring
in the same tick the timeout callbacks fire in REVERSE insertion order (the
sweep walks the table from its end backwards). -/
theorem C2_sweep_semantics (now : Int) (table : List PendingInterest) :
    (checkPitExpire now table).1 =
      table.filter (fun e => !(e.isTimedOut now)) ∧
    (checkPitExpire now table).2 =
      (table.filter (fun e => e.isTimedOut now)).reverse ∧
    (∀ e ∈ (checkPitExpire now table).2, e.timeoutTimeMilliseconds ≤ now) ∧
    (∀ e ∈ (checkPitExpire now table).1, now < e.timeoutTimeMilliseconds) := by
  have h := checkPitExpire_eq now table
  refine ⟨?_, ?_, ?_, ?_⟩
  · rw [h]
  · rw [h]
  · intro e he
    rw [h] at he
    simp only [List.mem_reverse, List.mem_filter, PendingInterest.isTimedOut,
      decide_eq_true_eq] at he
    exact he.2
  · intro e he
    rw [h] at he
    simp only [List.mem_filter, PendingInterest.isTimedOut,
      Bool.not_eq_true', decide_eq_false_iff_not, not_le] at he
    exact he.2

/-- Witness for C2 (amended) at a concrete input: one expired entry
(deadline 50) and one live entry (deadline 200) at tick time 100 — the
expired entry fires, the live one survives. -/
theorem C2_sweep_semantics_witness :
    (checkPitExpire 100
        [⟨1, ⟨[[97]], -1, -1⟩, 0, some 10, 50⟩,
         ⟨2, ⟨[[98]], -1, -1⟩, 0, some 11, 200⟩]).1 =
      [⟨2, ⟨[[98]], -1, -1⟩, 0, some 11, 200⟩] ∧
    (checkPitExpire 100
        [⟨1, ⟨[[97]], -1, -1⟩, 0, some 10, 50⟩,
         ⟨2, ⟨[[98]], -1, -1⟩, 0, some 11, 200⟩]).2 =
      [⟨1, ⟨[[97]], -1, -1⟩, 0, some 10, 50⟩] := by
  constructor
  · rw [(C2_sweep_semantics 100
      [⟨1, ⟨[[97]], -1, -1⟩, 0, some 10, 50⟩,
       ⟨2, ⟨[[98]], -1, -1⟩, 0, some 11, 200⟩]).1]
    decide
  · rw [(C2_sweep_semantics 100
      [⟨1, ⟨[[97]], -1, -1⟩, 0, some 10, 50⟩,
       ⟨2, ⟨[[98]], -1, -1⟩, 0, some 11, 200⟩]).2.1]
    decide

/-- Counterexample to claim C3: from the fresh node state, an
`expressInterest` whose transport send fails surfaces the error with the new
PIT entry already inserted — the table is not unchanged (it is no longer
empty). -/
theorem C3_cex_pit_changed_on_send_failure :
    expressInterest false 0 initialNodeState ⟨[[97]], 1000, -1⟩ 0 none =
      Except.error
        { pendingInterestTable := [PendingInterest.create 0 1 ⟨[[97]], 1000, -1⟩ 0 none]
          registeredPrefixTable := []
          lastPendingInterestId := 1
          lastRegisteredPrefixId := 0
          ndndId := [] } ∧
    [PendingInterest.create 0 1 ⟨[[97]], 1000, -1⟩ 0 none] ≠
      initialNodeState.pendingInterestTable := by
  constructor
  · rfl
  · decide

/-- Claim C3 as amended: `expressInterest` appends the new PIT entry before
performing the transport send, so when the send fails the surfaced error
state holds the old table with the new entry appended — in particular the
pending-interest table is NOT unchanged. -/
theorem C3_send_failure_entry_inserted (now : Int) (s : NodeState)
    (interest : Interest) (onData : CallbackId) (onTimeout : Option CallbackId) :
    expressInterest false now s interest onData onTimeout =
      Except.error
        { s with
          lastPendingInterestId := getNextPendingInterestId s.lastPendingInterestId
          pendingInterestTable := s.pendingInterestTable ++
            [PendingInterest.create now
              (getNextPendingInterestId s.lastPendingInterestId) interest onData
              onTimeout] } ∧
    (∀ s', expressInterest false now s interest onData onTimeout =
        Except.error s' → s'.pendingInterestTable ≠ s.pendingInterestTable) := by
  constructor
  · rfl
  · intro s' h hTable
    have hs' : s' =
        { s with
          lastPendingInterestId := getNextPendingInterestId s.lastPendingInterestId
          pendingInterestTable := s.pendingInterestTable ++
            [PendingInterest.create now
              (getNextPendingInterestId s.lastPendingInterestId) interest onData
              onTimeout] } := by
      have h0 : Except.error (ε := NodeState) (α := NodeState × Nat) s' =
          Except.error
            { s with
              lastPendingInterestId := getNextPendingInterestId s.lastPendingInterestId
              pendingInterestTable := s.pendingInterestTable ++
                [PendingInterest.create now
                  (getNextPendingInterestId s.lastPendingInterestId) interest
                  onData onTimeout] } := by
        rw [← h]
        rfl
      exact Except.error.inj h0
    rw [hs'] at hTable
    simp only [NodeState.mk.injEq] at hTable
    have := congrArg List.length hTable
    simp at this

/-- Witness for C3 (amended) at a concrete input: the failed send from the
fresh state surfaces an error state whose PIT is the one-entry table. -/
theorem C3_send_failure_witness :
    expressInterest false 0 initialNodeState ⟨[[98]], 2000, -1⟩ 3 (some 4) =
      Except.error
        { initialNodeState with
          lastPendingInterestId := getNextPendingInterestId 0
          pendingInterestTable :=
            [PendingInterest.create 0 (getNextPendingInterestId 0)
              ⟨[[98]], 2000, -1⟩ 3 (some 4)] } :=
  (C3_send_failure_entry_inserted 0 initialNodeState ⟨[[98]], 2000, -1⟩ 3
    (some 4)).1

/-- Counterexample to claim C5: a Data dispatch whose matched `onData`
callback raises is NOT swallowed — the exception escapes the dispatcher
(node.cpp:193 is wrapped in no try/catch). -/
theorem C5_cex_onData_exception_escapes :
    (onReceiveElement (fun _ => true)
        { initialNodeState with
          pendingInterestTable := [⟨1, ⟨[[97]], -1, -1⟩, 0, none, 0⟩] }
        (Block.dataBlock ⟨[[97]], [], []⟩)).2.2 = Except.error () ∧
    Except.error () ≠ (Except.ok () : Except Unit Unit) := by
  constructor
  · rfl
  · intro h
    exact Except.noConfusion h

/-- Claim C5 as amended: only exceptions raised by `onTimeout` are caught
and swallowed (at the timer boundary, inside `callTimeout`); an exception
raised by the matched `onData` or `onInterest` callback propagates out of
the dispatcher uncaught (the table mutation already performed — the PIT
erase — persists regardless). -/
theorem C5_only_timeout_exceptions_swallowed (raises : CallbackId → Bool)
    (s : NodeState) :
    (∀ pi : PendingInterest,
        PendingInterest.callTimeout raises pi = Except.ok ()) ∧
    (∀ d i entry,
        getEntryIndexForExpressedInterest s.pendingInterestTable d.name = some i →
        s.pendingInterestTable[i]? = some entry →
        raises entry.onData = true →
        (onReceiveElement raises s (Block.dataBlock d)).2.2 = Except.error () ∧
        (onReceiveElement raises s (Block.dataBlock d)).1.pendingInterestTable =
          s.pendingInterestTable.eraseIdx i) ∧
    (∀ interest entry,
        getEntryForRegisteredPrefix s.registeredPrefixTable interest.name =
          some entry →
        raises entry.onInterest = true →
        (onReceiveElement raises s (Block.interestBlock interest)).2.2 =
          Except.error ()) := by
  refine ⟨?_, ?_, ?_⟩
  · intro pi
    cases hcb : pi.onTimeout with
    | none => simp [PendingInterest.callTimeout, hcb]
    | some cb =>
      simp only [PendingInterest.callTimeout, hcb, invoke]
      cases hr : raises cb <;> simp
  · intro d i entry h1 h2 h3
    simp [onReceiveElement, h1, h2, invoke, h3]
  · intro interest entry h1 h2
    simp [onReceiveElement, h1, invoke, h2]

/-- Witness for C5 (amended): a concrete raising `onTimeout` is swallowed,
and a concrete raising `onData` escapes the dispatcher. -/
theorem C5_only_timeout_swallowed_witness :
    PendingInterest.callTimeout (fun _ => true)
        ⟨1, ⟨[[97]], -1, -1⟩, 0, some 9, 0⟩ = Except.ok () ∧
    (onReceiveElement (fun _ => true)
        { initialNodeState with
          pendingInterestTable := [⟨1, ⟨[[97]], -1, -1⟩, 0, none, 0⟩] }
        (Block.dataBlock ⟨[[97]], [], []⟩)).2.2 = Except.error () := by
  constructor
  · exact (C5_only_timeout_exceptions_swallowed (fun _ => true)
      initialNodeState).1 ⟨1, ⟨[[97]], -1, -1⟩, 0, some 9, 0⟩
  · exact ((C5_only_timeout_exceptions_swallowed (fun _ => true)
      { initialNodeState with
        pendingInterestTable := [⟨1, ⟨[[97]], -1, -1⟩, 0, none, 0⟩] }).2.1
      ⟨[[97]], [], []⟩ 0 ⟨1, ⟨[[97]], -1, -1⟩, 0, none, 0⟩
      (by rfl) (by rfl) (by rfl)).1

/-- Claim C6: the registration helper builds a self-registration Interest
whose name is exactly the component sequence `["ndnx", ndndId, "selfreg",
wire-encoded Data]` with scope 1, and appends the (`prefix`, `onInterest`,
id) entry to the registered-prefix table before the send (the trace lists
the RPT insertion strictly before the transport send). -/
theorem C6_registration_interest_shape_and_order
    (encodeForwardingEntry : ForwardingEntry → List Nat)
    (encodeData : Data → List Nat) (s : NodeState) (registeredPrefixId : Nat)
    (prefix_ : Name) (onInterest : CallbackId) (flags : Nat) :
    registerPrefixHelper encodeForwardingEntry encodeData s registeredPrefixId
        prefix_ onInterest flags =
      ({ s with registeredPrefixTable := s.registeredPrefixTable ++
          [⟨registeredPrefixId, prefix_, onInterest⟩] },
       [Event.insertRegisteredPrefix ⟨registeredPrefixId, prefix_, onInterest⟩,
        Event.sendInterest
          { name := [ndnxBytes, s.ndndId, selfregBytes,
              encodeData (selfregData encodeForwardingEntry prefix_ flags)]
            interestLifetimeMilliseconds := -1
            scope := 1 }]) := by
  rfl

/-- Claim C4: for every incoming Data block the dispatcher selects the
first PIT entry in insertion order whose Interest matches the Data's name
(every earlier entry does not match), removes that entry from the PIT before
invoking its `onData` callback — the trace is exactly the erase followed by
the single `onData` call, so the callback cannot observe its own entry —
and when no entry matches, the Data is dropped with the PIT unchanged. -/
theorem C4_data_dispatch_spec (raises : CallbackId → Bool) (s : NodeState)
    (d : Data) :
    (getEntryIndexForExpressedInterest s.pendingInterestTable d.name = none →
      onReceiveElement raises s (Block.dataBlock d) = (s, [], Except.ok ())) ∧
    (getEntryIndexForExpressedInterest s.pendingInterestTable d.name = none ↔
      ∀ e ∈ s.pendingInterestTable, e.interest.matchesName d.name = false) ∧
    (∀ i entry,
      getEntryIndexForExpressedInterest s.pendingInterestTable d.name = some i →
      s.pendingInterestTable[i]? = some entry →
      entry.interest.matchesName d.name = true ∧
      (∀ j e', j < i → s.pendingInterestTable[j]? = some e' →
        e'.interest.matchesName d.name = false) ∧
      onReceiveElement raises s (Block.dataBlock d) =
        ({ s with pendingInterestTable := s.pendingInterestTable.eraseIdx i },
         [Event.erasePendingInterest entry.pendingInterestId,
          Event.callOnData entry.onData entry.interest d],
         invoke raises entry.onData)) := by
  refine ⟨?_, getEntryIndexForExpressedInterest_none_iff d.name
    s.pendingInterestTable, ?_⟩
  · intro h
    simp [onReceiveElement, h]
  · intro i entry h1 h2
    obtain ⟨⟨e₀, he₀, hme₀⟩, hfirst⟩ :=
      getEntryIndexForExpressedInterest_some_spec d.name s.pendingInterestTable
        i h1
    have hent : e₀ = entry := by
      rw [h2] at he₀
      exact (Option.some.inj he₀).symm
    refine ⟨hent ▸ hme₀, hfirst, ?_⟩
    simp [onReceiveElement, h1, h2]

/-- Witness for C4 at a concrete input: a one-entry PIT whose Interest `/a`
matches Data `/a/b`; the dispatch erases the entry and then calls its
`onData` exactly once. -/
theorem C4_data_dispatch_witness :
    onReceiveElement (fun _ => false)
        { initialNodeState with
          pendingInterestTable := [⟨1, ⟨[[97]], 1000, -1⟩, 7, none, 50⟩] }
        (Block.dataBlock ⟨[[97], [98]], [], []⟩) =
      ({ initialNodeState with pendingInterestTable := [] },
       [Event.erasePendingInterest 1,
        Event.callOnData 7 ⟨[[97]], 1000, -1⟩ ⟨[[97], [98]], [], []⟩],
       Except.ok ()) := by
  have h := (C4_data_dispatch_spec (fun _ => false)
    { initialNodeState with
      pendingInterestTable := [⟨1, ⟨[[97]], 1000, -1⟩, 7, none, 50⟩] }
    ⟨[[97], [98]], [], []⟩).2.2 0 ⟨1, ⟨[[97]], 1000, -1⟩, 7, none, 50⟩
    (by rfl) (by rfl)
  exact h.2.2

/-- Claim C1 (the code's divergence, shown on a concrete input): with a
single registered prefix `/a/b` and incoming Interest name `/c` — which the
prefix does not match — the lookup still returns the `/a/b` entry instead of
returning none and dropping the Interest. -/
theorem C1_lookup_ignores_matching :
    getEntryForRegisteredPrefix [⟨1, [[97], [98]], 5⟩] [[99]] =
      some ⟨1, [[97], [98]], 5⟩ ∧
    Name.isPrefixOf [[97], [98]] [[99]] = false := by
  constructor
  · rfl
  · rfl

/-- Claim C10: whenever the registered-prefix table is non-empty, the
dispatcher's lookup returns some entry for every incoming Interest name —
the earliest-inserted entry of overall greatest prefix component count —
and the lookup never consults the Interest name at all, so no Interest is
dropped while at least one prefix is registered. -/
theorem C10_lookup_total_and_name_independent (table : List RegisteredPrefix)
    (name name' : Name) :
    getEntryForRegisteredPrefix table name = firstLongestEntry table ∧
    getEntryForRegisteredPrefix table name =
      getEntryForRegisteredPrefix table name' ∧
    (table ≠ [] →
      ∃ entry, getEntryForRegisteredPrefix table name = some entry ∧
        entry ∈ table ∧
        ∀ x ∈ table, x.prefix_.length ≤ entry.prefix_.length) := by
  refine ⟨getEntryForRegisteredPrefix_eq_firstLongest table name,
    (getEntryForRegisteredPrefix_eq_firstLongest table name).trans
      (getEntryForRegisteredPrefix_eq_firstLongest table name').symm, ?_⟩
  intro hne
  obtain ⟨x, hx, hlen⟩ := maxPrefixLength_attained table hne
  have hfind : ∃ entry, firstLongestEntry table = some entry := by
    rcases hfound : firstLongestEntry table with _ | entry
    · exfalso
      have := List.find?_eq_none.mp hfound x hx
      simp [hlen] at this
    · exact ⟨entry, rfl⟩
  obtain ⟨entry, hentry⟩ := hfind
  refine ⟨entry,
    (getEntryForRegisteredPrefix_eq_firstLongest table name).trans hentry,
    List.mem_of_find?_eq_some hentry, ?_⟩
  intro y hy
  have hpred := List.find?_some hentry
  have hmax : entry.prefix_.length = maxPrefixLength table := by
    simpa using hpred
  rw [hmax]
  exact prefixLength_le_maxPrefixLength table y hy

/-- Witness for C10 at a concrete input: two registered prefixes `/a` and
`/a/b` and the unrelated Interest name `/c` — the lookup still returns the
`/a/b` entry (greatest component count), dropping nothing. -/
theorem C10_lookup_total_witness :
    getEntryForRegisteredPrefix [⟨1, [[97]], 5⟩, ⟨2, [[97], [98]], 6⟩] [[99]] =
      firstLongestEntry [⟨1, [[97]], 5⟩, ⟨2, [[97], [98]], 6⟩] ∧
    firstLongestEntry [⟨1, [[97]], 5⟩, ⟨2, [[97], [98]], 6⟩] =
      some ⟨2, [[97], [98]], 6⟩ := by
  constructor
  · exact (C10_lookup_total_and_name_independent
      [⟨1, [[97]], 5⟩, ⟨2, [[97], [98]], 6⟩] [[99]] [[99]]).1
  · rfl

/-- Claim C9: across every sequence of `expressInterest`,
`removePendingInterest` and timer-sweep operations run from the fresh state
(counter seeded at 0), the ids `expressInterest` returns are strictly
increasing in order of return — hence pairwise distinct — and all positive
(drawn from the counter above its seed). -/
theorem C9_ids_unique_monotone (ops : List NodeOp) :
    List.Pairwise (· < ·) (runOps initialNodeState ops).2 ∧
    List.Pairwise (· ≠ ·) (runOps initialNodeState ops).2 ∧
    (∀ pendingInterestId ∈ (runOps initialNodeState ops).2,
      0 < pendingInterestId) := by
  refine ⟨runOps_ids_sorted ops initialNodeState, ?_, ?_⟩
  · exact (runOps_ids_sorted ops initialNodeState).imp fun h => Nat.ne_of_lt h
  · intro pendingInterestId h
    exact runOps_ids_gt ops initialNodeState pendingInterestId h

/-- Witness for C9 at a concrete run: two successful expresses around a
removal and a sweep return ids 1 and 2, on which the theorem's strict
ordering is observed. -/
theorem C9_ids_unique_witness :
    List.Pairwise (· < ·)
      (runOps initialNodeState
        [NodeOp.express true 0 ⟨[[97]], 1000, -1⟩ 0 none,
         NodeOp.removePending 1,
         NodeOp.sweep 5000,
         NodeOp.express true 0 ⟨[[98]], 1000, -1⟩ 0 none]).2 ∧
    (runOps initialNodeState
        [NodeOp.express true 0 ⟨[[97]], 1000, -1⟩ 0 none,
         NodeOp.removePending 1,
         NodeOp.sweep 5000,
         NodeOp.express true 0 ⟨[[98]], 1000, -1⟩ 0 none]).2 = [1, 2] := by
  constructor
  · exact (C9_ids_unique_monotone
      [NodeOp.express true 0 ⟨[[97]], 1000, -1⟩ 0 none,
       NodeOp.removePending 1,
       NodeOp.sweep 5000,
       NodeOp.express true 0 ⟨[[98]], 1000, -1⟩ 0 none]).1
  · rfl

end ndn
